import Mathlib

/-!
Verification of the cockroach-operator repository's version-catalog script
(`hack/update_crdb_versions.go`) and end-to-end test harness (`e2e` test file).

The Go code is shallowly embedded: pure functions become Lean functions,
`log.Fatalf` termination becomes `Except.error`, and the e2e test bodies
become explicit action traces.
-/

namespace CrdbOperator

/-- A semantic version as stored by the Masterminds `semver/v3` library
(`Version` struct): numeric major/minor/patch segments, prerelease and
metadata strings, and the unmodified original input string. -/
structure SemVersion where
  major : Nat
  minor : Nat
  patch : Nat
  pre : String
  metadata : String
  original : String
deriving DecidableEq, Repr

/-- A greedy run of decimal digits: returns the digits and the rest. -/
def digitRun : List Char → List Char × List Char
  | [] => ([], [])
  | c :: cs =>
    if c.isDigit then
      let r := digitRun cs
      (c :: r.1, r.2)
    else ([], c :: cs)

/-- Numeric value of a digit list (most significant first). -/
def digitsVal (ds : List Char) : Nat :=
  ds.foldl (fun a c => a * 10 + (c.toNat - '0'.toNat)) 0

/-- Split a character list at every '.' (model of `strings.Split(s, ".")`). -/
def splitDots : List Char → List (List Char)
  | [] => [[]]
  | c :: rest =>
    if c = '.' then [] :: splitDots rest
    else
      match splitDots rest with
      | [] => [[c]]
      | p :: ps => (c :: p) :: ps

/-- Characters allowed inside a prerelease/metadata identifier
(`[0-9A-Za-z-]`, the `allowed` set of the semver library). -/
def isPreChar (c : Char) : Bool := c.isDigit || c.isAlpha || c = '-'

/-- Greedy run of prerelease characters including '.' separators. -/
def preRun : List Char → List Char × List Char
  | [] => ([], [])
  | c :: cs =>
    if isPreChar c || c = '.' then
      let r := preRun cs
      (c :: r.1, r.2)
    else ([], c :: cs)

/-- All '.'-separated parts of a run are nonempty (the regex shape
`[0-9A-Za-z-]+(\.[0-9A-Za-z-]+)*` admits no empty part). -/
def partsOk (run : List Char) : Bool :=
  (splitDots run).all (fun p => !p.isEmpty)

/-- Model of `strconv.ParseUint(string(ds), 10, 64)` on a digit group. -/
def parseUint64 (ds : List Char) : Option Nat :=
  if ds = [] then none
  else if ds.all Char.isDigit then
    let n := digitsVal ds
    if n < 2 ^ 64 then some n else none
  else none

/-- Value of an optional `(\.[0-9]+)?` group: absent means 0 (the
`NewVersion` code sets minor/patch to 0 when the group is empty). -/
def segValue : Option (List Char) → Option Nat
  | none => some 0
  | some ds => parseUint64 ds

/-- Parse an optional `(\.[0-9]+)?` group greedily: returns the digit
group (if the group matched) and the remaining input. -/
def optDotDigits : List Char → Option (List Char) × List Char
  | [] => (none, [])
  | c :: r =>
    if c = '.' then
      match digitRun r with
      | ([], _) => (none, c :: r)
      | (ds, rest) => (some ds, rest)
    else (none, c :: r)

/-- Parse the optional prerelease (`-(...)`) and metadata (`\+(...)`) tail
of the version regex, requiring the end of input afterwards (the regex is
anchored with `$`). Returns `(pre, metadata)` on success. -/
def parsePreMeta (r : List Char) : Option (String × String) :=
  match r with
  | [] => some ("", "")
  | '-' :: rest =>
    let run := preRun rest
    if run.1 = [] then none
    else if !partsOk run.1 then none
    else
      match run.2 with
      | [] => some (String.mk run.1, "")
      | '+' :: rest2 =>
        let run2 := preRun rest2
        if run2.1 = [] then none
        else if !partsOk run2.1 then none
        else if run2.2 = [] then some (String.mk run.1, String.mk run2.1)
        else none
      | _ => none
  | '+' :: rest =>
    let run := preRun rest
    if run.1 = [] then none
    else if !partsOk run.1 then none
    else if run.2 = [] then some ("", String.mk run.1)
    else none
  | _ => none

/-- Core of `semver.NewVersion`: match the anchored version regex
`^v?([0-9]+)(\.[0-9]+)?(\.[0-9]+)?(-pre)?(\+meta)?$` against the input and
extract `(major, minor, patch, pre, metadata)`. -/
def newVersionCore (cs0 : List Char) : Option (Nat × Nat × Nat × String × String) :=
  let cs := match cs0 with
    | 'v' :: r => r
    | r => r
  let mj := digitRun cs
  if mj.1 = [] then none
  else
    match parseUint64 mj.1 with
    | none => none
    | some major =>
      let mn := optDotDigits mj.2
      match segValue mn.1 with
      | none => none
      | some minor =>
        let pt := optDotDigits mn.2
        match segValue pt.1 with
        | none => none
        | some patch =>
          match parsePreMeta pt.2 with
          | none => none
          | some pm => some (major, minor, patch, pm.1, pm.2)

/-- Model of `containsOnly(p, num)`: the part consists only of digits. -/
def containsOnlyDigits (p : List Char) : Bool := p.all Char.isDigit

/-- Model of the library's `validatePrerelease`: a numeric identifier must
not have a leading zero; other identifiers must use the allowed charset. -/
def validatePrerelease (p : String) : Bool :=
  (splitDots p.toList).all fun part =>
    if containsOnlyDigits part then
      !(decide (part.length > 1) && part.headD ' ' = '0')
    else part.all isPreChar

/-- Model of the library's `validateMetadata`. -/
def validateMetadata (m : String) : Bool :=
  (splitDots m.toList).all fun part => part.all isPreChar

/-- Model of `semver.NewVersion`: regex match, segment parsing, extra
validation of prerelease and metadata, and storing the unmodified input
string in `original`. -/
def newVersion (s : String) : Option SemVersion :=
  match newVersionCore s.toList with
  | none => none
  | some (mj, mn, pt, pre, meta) =>
    if pre ≠ "" && !validatePrerelease pre then none
    else if meta ≠ "" && !validateMetadata meta then none
    else some { major := mj, minor := mn, patch := pt, pre := pre, metadata := meta, original := s }

/-- Lexicographic (byte-wise) strict order on character lists, the model of
Go's `<` on strings (prerelease identifiers are ASCII, where character
order and byte order agree). -/
def lexLt : List Char → List Char → Bool
  | [], [] => false
  | [], _ :: _ => true
  | _ :: _, [] => false
  | a :: as, b :: bs =>
    if a < b then true
    else if b < a then false
    else lexLt as bs

/-- Model of the semver library's `comparePrePart`: equal parts tie; an
absent part loses to a present one; numeric identifiers rank below
alphanumeric ones and compare by value; otherwise byte-wise string order.
The numbers are parsed with `strconv.ParseUint(s, 10, 64)` — no sign is
permitted, so an identifier like `-99` fails to parse and is treated as
alphanumeric, and values up to `2^64 - 1` are numeric. (`n1` is the parse
error for `o`, `n2` the one for `s`, as in the source). -/
def comparePrePart (s o : String) : Int :=
  if s = o then 0
  else if s = "" then (if o ≠ "" then -1 else 1)
  else if o = "" then (if s ≠ "" then 1 else -1)
  else
    match parseUint64 o.toList, parseUint64 s.toList with
    | none, none => if lexLt o.toList s.toList then 1 else -1
    | none, some _ => -1
    | some _, none => 1
    | some oi, some si => if si > oi then 1 else -1

/-- Tail of the `comparePrerelease` loop once the left side is exhausted:
remaining right-side parts are compared against the empty placeholder. -/
def comparePrereleasePartsNil : List String → Int
  | [] => 0
  | o :: os =>
    let d := comparePrePart "" o
    if d = 0 then comparePrereleasePartsNil os else d

/-- Model of the loop in `comparePrerelease`: compare '.'-separated parts
pairwise, padding the shorter side with empty strings; the first nonzero
part comparison decides. -/
def comparePrereleaseParts : List String → List String → Int
  | [], os => comparePrereleasePartsNil os
  | s :: ss, [] =>
    let d := comparePrePart s ""
    if d = 0 then comparePrereleaseParts ss [] else d
  | s :: ss, o :: os =>
    let d := comparePrePart s o
    if d = 0 then comparePrereleaseParts ss os else d

/-- Model of the semver library's `comparePrerelease`. -/
def comparePrerelease (v o : String) : Int :=
  comparePrereleaseParts ((splitDots v.toList).map String.mk)
    ((splitDots o.toList).map String.mk)

/-- Model of the semver library's `compareSegment`. -/
def compareSegment (v o : Nat) : Int :=
  if v < o then -1
  else if o < v then 1
  else 0

/-- Model of `Version.Compare`: compare major, minor, patch segments, then
prerelease (absence of a prerelease ranks higher than presence). -/
def SemVersion.compare (v o : SemVersion) : Int :=
  if compareSegment v.major o.major ≠ 0 then compareSegment v.major o.major
  else if compareSegment v.minor o.minor ≠ 0 then compareSegment v.minor o.minor
  else if compareSegment v.patch o.patch ≠ 0 then compareSegment v.patch o.patch
  else if v.pre = "" ∧ o.pre = "" then 0
  else if v.pre = "" then 1
  else if o.pre = "" then -1
  else comparePrerelease v.pre o.pre

/-- Model of `Version.LessThan`, the order used by `semver.Collection`. -/
def SemVersion.lessThan (v o : SemVersion) : Bool := decide (v.compare o < 0)

/-- Comparison of two version strings, used only in example checks. -/
def compareStrings (a b : String) : Option Int :=
  (newVersion a).bind fun va => (newVersion b).map fun vb => va.compare vb

/-- Insert a version into a list sorted by `LessThan`: it is placed before
the first element that is not `LessThan` it. -/
def insertByLess (x : SemVersion) : List SemVersion → List SemVersion
  | [] => [x]
  | y :: ys => if y.lessThan x then y :: insertByLess x ys else x :: y :: ys

/-- Model of `sort.Sort(semver.Collection(vs))`: a comparison sort driven
by `Version.LessThan` (realised here as an insertion sort, which fixes the
order among elements the comparator ties). -/
def sortByLess : List SemVersion → List SemVersion
  | [] => []
  | x :: xs => insertByLess x (sortByLess xs)

/-- The first loop of `sortVersions`: parse every string with
`semver.NewVersion`; the source calls `log.Fatalf` (process exit) on the
first parse error, modelled as `Except.error`. -/
def parseVersions : List String → Except String (List SemVersion)
  | [] => Except.ok []
  | r :: rest =>
    match newVersion r with
    | none => Except.error ("Cannot parse version : " ++ r)
    | some v =>
      match parseVersions rest with
      | Except.error e => Except.error e
      | Except.ok vs => Except.ok (v :: vs)

/-- Model of `sortVersions`: convert the strings to semantic versions,
sort them, and convert back by emitting each version's `Original()`
string. A parse failure is the source's `log.Fatalf` exit. -/
def sortVersions (versions : List String) : Except String (List String) :=
  match parseVersions versions with
  | Except.error e => Except.error e
  | Except.ok vs => Except.ok ((sortByLess vs).map SemVersion.original)

/-- One tag of the catalog response (`Tags` entry with a `name` field). -/
structure CrdbTag where
  name : String
deriving DecidableEq, Repr

/-- One repository of the catalog response. -/
structure CrdbRepository where
  tags : List CrdbTag
deriving DecidableEq, Repr

/-- One data entry of the catalog response. -/
structure CrdbDataEntry where
  repositories : List CrdbRepository
deriving DecidableEq, Repr

/-- The `crdbVersionsResponse` payload decoded from the catalog API. -/
structure CrdbVersionsResponse where
  data : List CrdbDataEntry
deriving DecidableEq, Repr

/-- One atom of a regular expression branch: a literal character, or `.`
(any character other than a newline). -/
inductive RAtom where
  | lit : Char → RAtom
  | dot : RAtom
deriving DecidableEq, Repr

/-- Whether one atom matches one character. -/
def ratomMatches : RAtom → Char → Bool
  | RAtom.lit c, d => c = d
  | RAtom.dot, d => d ≠ '\n'

/-- Consume a sequence of atoms from the front of the input, returning the
remainder on success. -/
def ratomsConsume : List RAtom → List Char → Option (List Char)
  | [], s => some s
  | _ :: _, [] => none
  | a :: as, c :: s => if ratomMatches a c then ratomsConsume as s else none

/-- One branch of a top-level regular-expression alternation: an optional
`^` anchor, a sequence of single-character atoms, and an optional `$`
anchor. The inverted-filter pattern of the version script has exactly this
shape in each alternative. -/
structure RegexBranch where
  anchorStart : Bool
  atoms : List RAtom
  anchorEnd : Bool
deriving DecidableEq, Repr

/-- Whether a branch's atoms match starting at the head of `s`, subject to
the branch's `$` anchor. -/
def branchAtomsAt (b : RegexBranch) (s : List Char) : Bool :=
  match ratomsConsume b.atoms s with
  | some rest => !b.anchorEnd || rest.isEmpty
  | none => false

/-- Whether a branch matches somewhere in `s`: at the start only when `^`
anchored, at any position otherwise. -/
def branchMatches (b : RegexBranch) (s : List Char) : Bool :=
  if b.anchorStart then branchAtomsAt b s
  else s.tails.any (branchAtomsAt b)

/-- Branch list of atoms for a plain literal word. -/
def litAtoms (w : List Char) : List RAtom := w.map RAtom.lit

/-- The alternative `^v19` of the inverted pattern. -/
def branchV19 : RegexBranch :=
  { anchorStart := true, atoms := litAtoms ['v', '1', '9'], anchorEnd := false }

/-- The alternative `^v21.1.8$` of the inverted pattern; each `.` is the
any-character atom. -/
def branchV2118 : RegexBranch :=
  ⟨true,
   [RAtom.lit 'v', RAtom.lit '2', RAtom.lit '1', RAtom.dot,
    RAtom.lit '1', RAtom.dot, RAtom.lit '8'],
   true⟩

/-- The alternative `latest` of the inverted pattern. -/
def branchLatest : RegexBranch :=
  { anchorStart := false, atoms := litAtoms ['l', 'a', 't', 'e', 's', 't'], anchorEnd := false }

/-- The alternative `ubi$` of the inverted pattern. -/
def branchUbi : RegexBranch :=
  { anchorStart := false, atoms := litAtoms ['u', 'b', 'i'], anchorEnd := true }

/-- The compiled form of the constant `crdbVersionsInvertedRegexp`,
the pattern string `^v19|^v21.1.8$|latest|ubi$`. -/
def crdbVersionsInvertedRegexp : List RegexBranch :=
  [branchV19, branchV2118, branchLatest, branchUbi]

/-- Model of `regexp.MatchString(pattern, version)`: the pattern matches
the string iff some alternation branch matches. -/
def regexpMatchString (branches : List RegexBranch) (version : String) : Bool :=
  branches.any (fun b => branchMatches b version.toList)

/-- Model of `isValid`: keep a tag iff the inverted pattern does not match. -/
def isValid (version : String) : Bool :=
  !(regexpMatchString crdbVersionsInvertedRegexp version)

/-- Model of `getVersions`: iterate the nested response, appending every
tag name that `isValid` accepts. -/
def getVersions (data : CrdbVersionsResponse) : List String :=
  data.data.foldl
    (fun acc d =>
      d.repositories.foldl
        (fun acc repo =>
          repo.tags.foldl
            (fun acc tag => if isValid tag.name then acc ++ [tag.name] else acc)
            acc)
        acc)
    []

/-- All tag names of a response, in the iteration order of `getVersions`. -/
def allTags (resp : CrdbVersionsResponse) : List String :=
  resp.data.flatMap fun d =>
    d.repositories.flatMap fun r => r.tags.map CrdbTag.name

/-- Model of `main` after the catalog fetch: filter the tags, sort them
and write the YAML manifest. `log.Fatalf` inside `sortVersions` exits the
process before `ioutil.WriteFile` runs, so no manifest content is produced
(`none`); otherwise the manifest lists the sorted versions (`some`). -/
def mainResult (resp : CrdbVersionsResponse) : Option (List String) :=
  match sortVersions (getVersions resp) with
  | Except.error _ => none
  | Except.ok sorted => some sorted

/-!
Embedding of the e2e test file. Go package initialization runs before the
test framework parses command-line flags, so a flag value read during
initialization is the registered default, while a pointer dereferenced
inside a test body sees the parsed command-line value.
-/

/-- A registered boolean command-line flag with its default value. -/
structure FlagPtr where
  deflt : Bool
deriving DecidableEq, Repr

/-- Value stored at the flag's pointer at package-initialization time,
before the testing framework has called `flag.Parse`. -/
def FlagPtr.valueAtInit (p : FlagPtr) : Bool := p.deflt

/-- Value stored at the flag's pointer after `flag.Parse`: the
command-line value when the flag was given, the default otherwise. -/
def FlagPtr.valueAfterParse (p : FlagPtr) (cmdline : Option Bool) : Bool :=
  cmdline.getD p.deflt

/-- The flag registered by `flag.Bool("parallel", false, ...)`. -/
def parallelFlag : FlagPtr := { deflt := false }

/-- The flag registered by `flag.Bool("pvc", false, ...)`. -/
def pvcFlag : FlagPtr := { deflt := false }

/-- `var parallel = *flag.Bool("parallel", false, "run tests in parallel")`:
the pointer is dereferenced in the package-level initializer, before flag
parsing, so the variable holds the default no matter what the command line
says. -/
def parallel (_parallelCmdline : Option Bool) : Bool :=
  parallelFlag.valueAtInit

/-- `var pvc = flag.Bool("pvc", false, "run pvc test")`: the pointer is
kept, and dereferences inside test bodies happen after flag parsing. -/
def pvc (pvcCmdline : Option Bool) : Bool :=
  pvcFlag.valueAfterParse pvcCmdline

/-- Modelled from the spec: the fluent resource-specification builder
(`pkg/testutil.NewBuilder` and its chained options, not among the shown
sources) accumulates name, node count, security mode (insecure by
default), image reference and storage parameters. -/
structure ClusterSpec where
  name : String
  nodeCount : Nat
  tls : Bool
  image : String
  pvCapacity : String
  pvStorageClass : String
deriving DecidableEq, Repr

/-- Modelled from the spec: `testutil.NewBuilder(name)` starts a builder
with the given base name, insecure security mode and no other options. -/
def NewBuilder (name : String) : ClusterSpec :=
  { name := name, nodeCount := 0, tls := false, image := "",
    pvCapacity := "", pvStorageClass := "" }

/-- Modelled from the spec: `WithNodeCount` sets the desired node count. -/
def ClusterSpec.WithNodeCount (b : ClusterSpec) (n : Nat) : ClusterSpec :=
  { b with nodeCount := n }

/-- Modelled from the spec: `WithTLS` switches the spec to TLS-enabled. -/
def ClusterSpec.WithTLS (b : ClusterSpec) : ClusterSpec :=
  { b with tls := true }

/-- Modelled from the spec: `WithImage` sets the container image. -/
def ClusterSpec.WithImage (b : ClusterSpec) (img : String) : ClusterSpec :=
  { b with image := img }

/-- Modelled from the spec: `WithPVDataStore` sets the persistent-volume
capacity and storage class. -/
def ClusterSpec.WithPVDataStore (b : ClusterSpec) (capacity storageClass : String) : ClusterSpec :=
  { b with pvCapacity := capacity, pvStorageClass := storageClass }

/-- Observable actions of an e2e test body, in execution order. -/
inductive Action where
  | markParallel
  | skip
  | setActorLog
  | createEnv
  | envStart
  | deferStop
  | envStop
  | newSandbox
  | startManager
  | createResource : ClusterSpec → Action
  | requireReadyTimeout : Nat → Action
  | requireDBFunctionalSecure
  | requireDBFunctionalInsecure
  | requireImagePullBackoff
  | requireFailedState
  | logDone
deriving DecidableEq, Repr

/-- An item of a test body: an action that cannot fail, or a `require`
assertion whose failure aborts the remaining body. -/
inductive Item where
  | act : Action → Item
  | check : Action → Item
deriving DecidableEq, Repr

/-- Modelled from the spec: fail-fast execution of the sandbox phase of a
test body (`testutil.Steps.Run` and the `require` helpers, not among the
shown sources). `ok` tells whether an assertion succeeds; the first
failing assertion is the last executed action. -/
def execItems (ok : Action → Bool) : List Item → List Action
  | [] => []
  | Item.act a :: rest => a :: execItems ok rest
  | Item.check a :: rest => if ok a then a :: execItems ok rest else [a]

/-- Shared shape of every e2e test body: the parallel guard, the
short-mode skip, logger setup, environment start with `defer e.Stop()`
(so `envStop` is emitted on every exit path of the started body), then
the sandbox phase. -/
def runTest (short : Bool) (parallelCmdline : Option Bool) (ok : Action → Bool)
    (items : List Item) : List Action :=
  (if parallel parallelCmdline then [Action.markParallel] else []) ++
    (if short then [Action.skip]
     else [Action.setActorLog, Action.createEnv, Action.envStart, Action.deferStop] ++
       execItems ok items ++ [Action.envStop])

/-- The builder chain of `TestCreateInsecureCluster`. -/
def insecureClusterSpec : ClusterSpec :=
  (((NewBuilder "crdb").WithNodeCount 3).WithImage
      "cockroachdb/cockroach:v21.1.6").WithPVDataStore "1Gi" "standard"

/-- The builder chain of `TestCreatesSecureCluster`. -/
def secureClusterSpec : ClusterSpec :=
  ((((NewBuilder "crdb").WithNodeCount 3).WithTLS).WithImage
      "cockroachdb/cockroach:v20.2.10").WithPVDataStore "1Gi" "standard"

/-- The builder chain of `TestCreateSecureClusterWithInvalidVersion`:
the image tag `v20.2.555` does not exist. -/
def invalidVersionClusterSpec : ClusterSpec :=
  ((((NewBuilder "crdb").WithNodeCount 3).WithTLS).WithImage
      "cockroachdb/cockroach:v20.2.555").WithPVDataStore "1Gi" "standard"

/-- The builder chain of `TestCreateSecureClusterWithNonCRDBImage`. -/
def nonCrdbClusterSpec : ClusterSpec :=
  ((((NewBuilder "crdb").WithNodeCount 3).WithTLS).WithImage
      "nginx:latest").WithPVDataStore "1Gi" "standard"

/-- Sandbox-phase items of `TestCreateInsecureCluster`. -/
def insecureClusterItems : List Item :=
  [Item.act Action.newSandbox, Item.act Action.startManager,
   Item.check (Action.createResource insecureClusterSpec),
   Item.check (Action.requireReadyTimeout 500),
   Item.check Action.requireDBFunctionalInsecure,
   Item.act Action.logDone]

/-- Sandbox-phase items of `TestCreatesSecureCluster`. -/
def secureClusterItems : List Item :=
  [Item.act Action.newSandbox, Item.act Action.startManager,
   Item.check (Action.createResource secureClusterSpec),
   Item.check (Action.requireReadyTimeout 500),
   Item.check Action.requireDBFunctionalSecure,
   Item.act Action.logDone]

/-- Sandbox-phase items of `TestCreateSecureClusterWithInvalidVersion`. -/
def invalidVersionItems : List Item :=
  [Item.act Action.newSandbox, Item.act Action.startManager,
   Item.check (Action.createResource invalidVersionClusterSpec),
   Item.check Action.requireImagePullBackoff,
   Item.check Action.requireFailedState,
   Item.act Action.logDone]

/-- Sandbox-phase items of `TestCreateSecureClusterWithNonCRDBImage`. -/
def nonCrdbItems : List Item :=
  [Item.act Action.newSandbox, Item.act Action.startManager,
   Item.check (Action.createResource nonCrdbClusterSpec),
   Item.check Action.requireFailedState,
   Item.act Action.logDone]

/-- Trace of `TestCreateInsecureCluster`. -/
def TestCreateInsecureCluster (short : Bool) (parallelCmdline : Option Bool)
    (ok : Action → Bool) : List Action :=
  runTest short parallelCmdline ok insecureClusterItems

/-- Trace of `TestCreatesSecureCluster`. -/
def TestCreatesSecureCluster (short : Bool) (parallelCmdline : Option Bool)
    (ok : Action → Bool) : List Action :=
  runTest short parallelCmdline ok secureClusterItems

/-- Trace of `TestCreateSecureClusterWithInvalidVersion`. -/
def TestCreateSecureClusterWithInvalidVersion (short : Bool) (parallelCmdline : Option Bool)
    (ok : Action → Bool) : List Action :=
  runTest short parallelCmdline ok invalidVersionItems

/-- Trace of `TestCreateSecureClusterWithNonCRDBImage`. -/
def TestCreateSecureClusterWithNonCRDBImage (short : Bool) (parallelCmdline : Option Bool)
    (ok : Action → Bool) : List Action :=
  runTest short parallelCmdline ok nonCrdbItems

/-- All top-level e2e tests of the suite. -/
def e2eSuite : List (Bool → Option Bool → (Action → Bool) → List Action) :=
  [TestCreateInsecureCluster, TestCreatesSecureCluster,
   TestCreateSecureClusterWithInvalidVersion, TestCreateSecureClusterWithNonCRDBImage]

/-- Modelled from the spec: the `-pvc` flag enables
persistent-volume-claim-specific test variants (the gated variants are not
among the shown sources); a variant runs exactly when the parsed flag
value is true. -/
def pvcTestVariantRuns (pvcCmdline : Option Bool) : Bool := pvc pvcCmdline

example : newVersion "v21.1.7" =
    some { major := 21, minor := 1, patch := 7, pre := "", metadata := "", original := "v21.1.7" } := by
  decide
example : newVersion "1.2.3-alpha.1+build.5" =
    some { major := 1, minor := 2, patch := 3, pre := "alpha.1", metadata := "build.5",
           original := "1.2.3-alpha.1+build.5" } := by
  decide
example : newVersion "latest" = none := by decide
example : newVersion "1.0.0-01" = none := by decide
example : newVersion "1.2.3.4" = none := by decide
example : newVersion "1.2." = none := by decide

example : compareStrings "v20.2.10" "v21.1.7" = some (-1) := by decide
example : compareStrings "1.0.0-alpha" "1.0.0" = some (-1) := by decide
example : compareStrings "1.0.0-2" "1.0.0-alpha" = some (-1) := by decide
example : compareStrings "1.0.0-alpha.1" "1.0.0-alpha.beta" = some (-1) := by decide
example : compareStrings "1.0.0--98" "1.0.0--99" = some (-1) := by decide
example : compareStrings "1.0.0-9223372036854775808" "1.0.0-18446744073709551615" =
    some (-1) := by decide

example : sortVersions ["v21.1.7", "v20.2.10", "v21.1.6"] =
    Except.ok ["v20.2.10", "v21.1.6", "v21.1.7"] := rfl
example : sortVersions ["v21.1.7", "nonsense"] =
    Except.error "Cannot parse version : nonsense" := rfl
example : sortVersions ["1.0.0--98", "1.0.0--99"] =
    Except.ok ["1.0.0--98", "1.0.0--99"] := rfl

example : isValid "v21.1.7" = true := by decide
example : isValid "v19.2.1" = false := by decide
example : isValid "v21.1.8" = false := by decide
example : isValid "v21.1.88" = true := by decide
example : isValid "v21x1y8" = false := by decide
example : isValid "latest-v21.1" = false := by decide
example : isValid "v21.1.6-ubi" = false := by decide
example : isValid "v21.1.6-ubi2" = true := by decide

example :
    getVersions { data := [{ repositories := [{ tags := [{ name := "v19.2.1" },
      { name := "v21.1.7" }, { name := "latest" }] }] }] } = ["v21.1.7"] := by decide
example :
    mainResult { data := [{ repositories := [{ tags := [{ name := "v21.1.7" },
      { name := "v20.2.10" }] }] }] } = some ["v20.2.10", "v21.1.7"] := rfl

example : TestCreateInsecureCluster true none (fun _ => true) = [Action.skip] := rfl
example : TestCreateInsecureCluster false none (fun _ => true) =
    [Action.setActorLog, Action.createEnv, Action.envStart, Action.deferStop,
     Action.newSandbox, Action.startManager,
     Action.createResource insecureClusterSpec, Action.requireReadyTimeout 500,
     Action.requireDBFunctionalInsecure, Action.logDone, Action.envStop] := rfl
example : TestCreateInsecureCluster false none
      (fun a => !(a = Action.requireReadyTimeout 500)) =
    [Action.setActorLog, Action.createEnv, Action.envStart, Action.deferStop,
     Action.newSandbox, Action.startManager,
     Action.createResource insecureClusterSpec, Action.requireReadyTimeout 500,
     Action.envStop] := rfl

/-- C1: the command line sets `-parallel=true`, yet the package-level
`parallel` variable was fixed to the default `false` at initialization, so
`TestCreateInsecureCluster` never calls `t.Parallel()` — its trace is the
same as with the flag absent and contains no parallel marking. The claim
that setting the flag makes every top-level test run concurrently fails on
the code. -/
theorem parallel_flag_never_effective :
    parallel (some true) = false ∧
    TestCreateInsecureCluster false (some true) (fun _ => true) =
      TestCreateInsecureCluster false none (fun _ => true) ∧
    Action.markParallel ∉ TestCreateInsecureCluster false (some true) (fun _ => true) :=
  ⟨rfl, rfl, by decide⟩

/-- C2: `TestCreateInsecureCluster` builds the specification named "crdb"
with node count 3, no TLS, image `cockroachdb/cockroach:v21.1.6` and a 1Gi
"standard" persistent data store, submits it, and then asserts readiness
with a 500-second timeout followed by the insecure database probe, in that
order. -/
theorem TestCreateInsecureCluster_spec (pc : Option Bool) :
    insecureClusterSpec =
      { name := "crdb", nodeCount := 3, tls := false,
        image := "cockroachdb/cockroach:v21.1.6",
        pvCapacity := "1Gi", pvStorageClass := "standard" } ∧
    TestCreateInsecureCluster false pc (fun _ => true) =
      [Action.setActorLog, Action.createEnv, Action.envStart, Action.deferStop,
       Action.newSandbox, Action.startManager,
       Action.createResource insecureClusterSpec, Action.requireReadyTimeout 500,
       Action.requireDBFunctionalInsecure, Action.logDone, Action.envStop] :=
  ⟨rfl, rfl⟩

/-- C3: in `TestCreateSecureClusterWithInvalidVersion`, whenever the
submission succeeds and the image-pull-backoff assertion succeeds
(backoff is detected), the failed-state assertion is executed at a
strictly later position of the trace — regardless of its own outcome —
and if the failed-state condition does not hold the test body aborts
before its final step (the fail-fast contract), so a passing run requires
the failed-state condition. -/
theorem TestCreateSecureClusterWithInvalidVersion_order (pc : Option Bool)
    (ok : Action → Bool)
    (hcreate : ok (Action.createResource invalidVersionClusterSpec) = true)
    (hbackoff : ok Action.requireImagePullBackoff = true) :
    (∃ i j : Nat, i < j ∧
      (TestCreateSecureClusterWithInvalidVersion false pc ok)[i]? =
        some Action.requireImagePullBackoff ∧
      (TestCreateSecureClusterWithInvalidVersion false pc ok)[j]? =
        some Action.requireFailedState) ∧
    (ok Action.requireFailedState = false →
      Action.logDone ∉ TestCreateSecureClusterWithInvalidVersion false pc ok) := by
  constructor
  · refine ⟨7, 8, by omega, ?_, ?_⟩ <;>
      cases hf : ok Action.requireFailedState <;>
        simp [TestCreateSecureClusterWithInvalidVersion, runTest, invalidVersionItems,
          execItems, hcreate, hbackoff, hf, parallel, parallelFlag, FlagPtr.valueAtInit]
  · intro hf
    simp [TestCreateSecureClusterWithInvalidVersion, runTest, invalidVersionItems,
      execItems, hcreate, hbackoff, hf, parallel, parallelFlag, FlagPtr.valueAtInit]

theorem TestCreateSecureClusterWithInvalidVersion_order_witness :
    (∃ i j : Nat, i < j ∧
      (TestCreateSecureClusterWithInvalidVersion false none (fun _ => true))[i]? =
        some Action.requireImagePullBackoff ∧
      (TestCreateSecureClusterWithInvalidVersion false none (fun _ => true))[j]? =
        some Action.requireFailedState) ∧
    ((fun _ => true : Action → Bool) Action.requireFailedState = false →
      Action.logDone ∉ TestCreateSecureClusterWithInvalidVersion false none (fun _ => true)) :=
  TestCreateSecureClusterWithInvalidVersion_order none (fun _ => true) rfl rfl

/-- C4: in short mode every e2e test of the suite skips immediately: its
whole trace is the skip marker, so no environment is created, no manager
is started and no resource is submitted — the entire step list is
skipped, never a proper subset of it. -/
theorem short_mode_skips_entire_test (pc : Option Bool) (ok : Action → Bool) :
    ∀ tf ∈ e2eSuite, tf true pc ok = [Action.skip] := by
  intro tf htf
  simp only [e2eSuite, List.mem_cons, List.not_mem_nil, or_false] at htf
  rcases htf with rfl | rfl | rfl | rfl <;> rfl

theorem short_mode_skips_entire_test_witness :
    TestCreateInsecureCluster ∈ e2eSuite ∧
    TestCreateInsecureCluster true none (fun _ => true) = [Action.skip] :=
  ⟨List.Mem.head _,
   short_mode_skips_entire_test none (fun _ => true) TestCreateInsecureCluster (List.Mem.head _)⟩

/-- C5: in every e2e test, once the environment has been started the
deferred `e.Stop()` runs when the test ends: for every assertion outcome
the non-short trace ends with the environment stop, the environment start
occurs before it, and the deferred release is registered immediately
after the start. -/
theorem env_stop_always_runs (pc : Option Bool) (ok : Action → Bool) :
    ∀ tf ∈ e2eSuite, ∃ pre : List Action,
      tf false pc ok = pre ++ [Action.envStop] ∧ Action.envStart ∈ pre ∧
      pre[2]? = some Action.envStart ∧ pre[3]? = some Action.deferStop := by
  intro tf htf
  simp only [e2eSuite, List.mem_cons, List.not_mem_nil, or_false] at htf
  have key : ∀ items : List Item, ∃ pre : List Action,
      runTest false pc ok items = pre ++ [Action.envStop] ∧ Action.envStart ∈ pre ∧
      pre[2]? = some Action.envStart ∧ pre[3]? = some Action.deferStop := by
    intro items
    refine ⟨[Action.setActorLog, Action.createEnv, Action.envStart, Action.deferStop] ++
      execItems ok items, ?_, ?_, ?_, ?_⟩
    · simp [runTest, parallel, parallelFlag, FlagPtr.valueAtInit]
    · simp
    · simp
    · simp
  rcases htf with rfl | rfl | rfl | rfl
  · exact key insecureClusterItems
  · exact key secureClusterItems
  · exact key invalidVersionItems
  · exact key nonCrdbItems

theorem env_stop_always_runs_witness :
    ∃ pre : List Action,
      TestCreateInsecureCluster false none (fun _ => true) = pre ++ [Action.envStop] ∧
      Action.envStart ∈ pre ∧
      pre[2]? = some Action.envStart ∧ pre[3]? = some Action.deferStop :=
  env_stop_always_runs none (fun _ => true) TestCreateInsecureCluster (List.Mem.head _)

/-- C8: the `-pvc` flag is read through its pointer after flag parsing, so
setting it to true enables the pvc-specific test variants and leaving it
at its default of false (or absent) disables them. -/
theorem pvc_flag_gates_variants :
    pvcTestVariantRuns (some true) = true ∧
    pvcTestVariantRuns (some false) = false ∧
    pvcTestVariantRuns none = false :=
  ⟨rfl, rfl, rfl⟩

/-- Consuming a literal word from the input succeeds with remainder `r`
exactly when the input is the word followed by `r`. -/
theorem ratomsConsume_litAtoms (w : List Char) :
    ∀ s r : List Char, ratomsConsume (litAtoms w) s = some r ↔ s = w ++ r := by
  induction w with
  | nil =>
    intro s r
    simp [litAtoms, ratomsConsume]
  | cons c w ih =>
    intro s r
    cases s with
    | nil => simp [litAtoms, ratomsConsume]
    | cons d s' =>
      simp only [litAtoms, List.map_cons, ratomsConsume, ratomMatches, List.cons_append,
        List.cons.injEq]
      by_cases hcd : c = d
      · subst hcd
        simpa using ih s' r
      · simp [hcd, Ne.symm hcd]

/-- A branch of literal atoms without `$` matches at the head of `s`
exactly when the word is a prefix of `s`. -/
theorem branchAtomsAt_lits_noEnd (b1 : Bool) (w s : List Char) :
    branchAtomsAt { anchorStart := b1, atoms := litAtoms w, anchorEnd := false } s = true ↔
      w <+: s := by
  unfold branchAtomsAt
  cases h : ratomsConsume (litAtoms w) s with
  | none =>
    simp only [Bool.false_eq_true, false_iff]
    rintro ⟨t, ht⟩
    rw [(ratomsConsume_litAtoms w s t).symm.mp ht.symm] at h
    cases h
  | some rest =>
    simp only [Bool.not_false, Bool.true_or, true_iff]
    exact ⟨rest, ((ratomsConsume_litAtoms w s rest).mp h).symm⟩

/-- A branch of literal atoms with `$` matches at the head of `s` exactly
when `s` is the word itself. -/
theorem branchAtomsAt_lits_end (b1 : Bool) (w s : List Char) :
    branchAtomsAt { anchorStart := b1, atoms := litAtoms w, anchorEnd := true } s = true ↔
      s = w := by
  unfold branchAtomsAt
  cases h : ratomsConsume (litAtoms w) s with
  | none =>
    simp only [Bool.false_eq_true, false_iff]
    intro hsw
    rw [(ratomsConsume_litAtoms w s []).symm.mp (by simpa using hsw)] at h
    cases h
  | some rest =>
    have hs := (ratomsConsume_litAtoms w s rest).mp h
    subst hs
    simp [List.isEmpty_iff]

/-- `^word` (no `$`): matches iff the word is a prefix. -/
theorem branchMatches_prefix_lits (w s : List Char) :
    branchMatches { anchorStart := true, atoms := litAtoms w, anchorEnd := false } s = true ↔
      w <+: s := by
  unfold branchMatches
  exact branchAtomsAt_lits_noEnd true w s

/-- Unanchored `word` (no `^`, no `$`): matches iff the word occurs as a
contiguous substring. -/
theorem branchMatches_substr_lits (w s : List Char) :
    branchMatches { anchorStart := false, atoms := litAtoms w, anchorEnd := false } s = true ↔
      w <:+: s := by
  unfold branchMatches
  simp only [Bool.false_eq_true, if_false, List.any_eq_true]
  constructor
  · rintro ⟨t, ht, hm⟩
    rw [ List.mem_tails] at ht
    rw [branchAtomsAt_lits_noEnd] at hm
    exact List.infix_iff_prefix_suffix.mpr ⟨t, hm, ht⟩
  · intro h
    rcases List.infix_iff_prefix_suffix.mp h with ⟨t, hp, hs⟩
    exact ⟨t, (List.mem_tails t s).mpr hs, (branchAtomsAt_lits_noEnd false w t).mpr hp⟩

/-- `word$` (no `^`): matches iff the word is a suffix. -/
theorem branchMatches_end_lits (w s : List Char) :
    branchMatches { anchorStart := false, atoms := litAtoms w, anchorEnd := true } s = true ↔
      w <:+ s := by
  unfold branchMatches
  simp only [Bool.false_eq_true, if_false, List.any_eq_true]
  constructor
  · rintro ⟨t, ht, hm⟩
    rw [ List.mem_tails] at ht
    rw [branchAtomsAt_lits_end] at hm
    exact hm ▸ ht
  · intro h
    exact ⟨w, (List.mem_tails w s).mpr h, (branchAtomsAt_lits_end false w w).mpr rfl⟩

/-- `^v21.1.8$`: the two `.` atoms make this match exactly the
seven-character strings `v21?1?8` whose wildcard positions are not
newlines. -/
theorem branchMatches_v2118 (s : List Char) :
    branchMatches branchV2118 s = true ↔
      ∃ a b : Char, s = ['v', '2', '1', a, '1', b, '8'] ∧ a ≠ '\n' ∧ b ≠ '\n' := by
  rcases s with _ | ⟨c0, _ | ⟨c1, _ | ⟨c2, _ | ⟨c3, _ | ⟨c4, _ | ⟨c5, _ | ⟨c6, rest⟩⟩⟩⟩⟩⟩⟩ <;>
    simp [branchV2118, branchMatches, branchAtomsAt, ratomsConsume, ratomMatches,
      List.isEmpty_iff, and_assoc]
  constructor
  · intro h
    split_ifs at h with h0 h1 h2 h3 h4 h5 h6
    subst h0 h1 h2 h4 h6
    simp at h
    exact ⟨rfl, rfl, rfl, rfl, rfl, h, h3, h5⟩
  · rintro ⟨rfl, rfl, rfl, rfl, rfl, rfl, h3, h5⟩
    simp [h3, h5]

/-- The tag loop of `getVersions` appends exactly the valid tag names. -/
theorem tags_foldl_eq (tags : List CrdbTag) (acc : List String) :
    tags.foldl (fun acc tag => if isValid tag.name then acc ++ [tag.name] else acc) acc =
      acc ++ (tags.map CrdbTag.name).filter isValid := by
  induction tags generalizing acc with
  | nil => simp
  | cons t ts ih =>
    simp only [List.foldl_cons, List.map_cons, List.filter_cons]
    by_cases h : isValid t.name
    · rw [ih]
      simp [h]
    · rw [ih]
      simp [h]

/-- The repository loop of `getVersions` appends exactly the valid tag
names of all repositories. -/
theorem repos_foldl_eq (repos : List CrdbRepository) (acc : List String) :
    repos.foldl
        (fun acc repo =>
          repo.tags.foldl (fun acc tag => if isValid tag.name then acc ++ [tag.name] else acc)
            acc)
        acc =
      acc ++ ((repos.flatMap fun r => r.tags.map CrdbTag.name).filter isValid) := by
  induction repos generalizing acc with
  | nil => simp
  | cons r rs ih =>
    simp only [List.foldl_cons, List.flatMap_cons, List.filter_append]
    rw [tags_foldl_eq, ih]
    simp

/-- The data loop of `getVersions` appends exactly the valid tag names of
all data entries. -/
theorem data_foldl_eq (ds : List CrdbDataEntry) (acc : List String) :
    ds.foldl
        (fun acc d =>
          d.repositories.foldl
            (fun acc repo =>
              repo.tags.foldl
                (fun acc tag => if isValid tag.name then acc ++ [tag.name] else acc)
                acc)
            acc)
        acc =
      acc ++
        ((ds.flatMap fun d => d.repositories.flatMap fun r => r.tags.map CrdbTag.name).filter
          isValid) := by
  induction ds generalizing acc with
  | nil => simp
  | cons d dd ih =>
    simp only [List.foldl_cons, List.flatMap_cons, List.filter_append]
    rw [repos_foldl_eq, ih]
    simp

/-- `getVersions` is the filter of all tag names by `isValid`, in
iteration order. -/
theorem getVersions_eq_filter (resp : CrdbVersionsResponse) :
    getVersions resp = (allTags resp).filter isValid := by
  unfold getVersions allTags
  rw [data_foldl_eq]
  simp

/-- `regexp.MatchString` of the inverted pattern holds exactly on tags
that begin with `v19`, match the anchored `v21.1.8` pattern, contain
`latest`, or end in `ubi`. -/
theorem regexpMatch_characterization (t : String) :
    regexpMatchString crdbVersionsInvertedRegexp t = true ↔
      ("v19".toList <+: t.toList ∨
       (∃ a b : Char, t.toList = ['v', '2', '1', a, '1', b, '8'] ∧ a ≠ '\n' ∧ b ≠ '\n') ∨
       "latest".toList <:+: t.toList ∨
       "ubi".toList <:+ t.toList) := by
  have h19 : "v19".toList = ['v', '1', '9'] := rfl
  have hlat : "latest".toList = ['l', 'a', 't', 'e', 's', 't'] := rfl
  have hubi : "ubi".toList = ['u', 'b', 'i'] := rfl
  rw [h19, hlat, hubi]
  unfold regexpMatchString crdbVersionsInvertedRegexp branchV19 branchLatest branchUbi
  simp only [List.any_cons, List.any_nil, Bool.or_eq_true, Bool.false_eq_true, or_false]
  rw [branchMatches_prefix_lits, branchMatches_v2118, branchMatches_substr_lits,
    branchMatches_end_lits]

/-- C6: `getVersions` returns exactly the tag names of the response on
which the inverted pattern `^v19|^v21.1.8$|latest|ubi$` does not match: a
tag is excluded iff it begins with `v19`, matches the anchored `v21.1.8`
pattern (`.` matching any non-newline character), contains `latest`, or
ends in `ubi`; every other tag of the response is kept. -/
theorem getVersions_spec (resp : CrdbVersionsResponse) (t : String) :
    t ∈ getVersions resp ↔
      t ∈ allTags resp ∧
      ¬("v19".toList <+: t.toList ∨
        (∃ a b : Char, t.toList = ['v', '2', '1', a, '1', b, '8'] ∧ a ≠ '\n' ∧ b ≠ '\n') ∨
        "latest".toList <:+: t.toList ∨
        "ubi".toList <:+ t.toList) := by
  rw [getVersions_eq_filter, List.mem_filter]
  refine and_congr_right fun _ => ?_
  rw [← regexpMatch_characterization]
  unfold isValid
  constructor
  · intro h hm
    rw [hm] at h
    cases h
  · intro h
    cases hm : regexpMatchString crdbVersionsInvertedRegexp t
    · rfl
    · exact absurd hm h

/-- Byte-wise string order is asymmetric. -/
theorem lexLt_asymm : ∀ a b : List Char, lexLt a b = true → lexLt b a = false := by
  intro a
  induction a with
  | nil => intro b h; cases b <;> simp_all [lexLt]
  | cons x xs ih =>
    intro b h
    cases b with
    | nil => simp_all [lexLt]
    | cons y ys =>
      simp only [lexLt] at h ⊢
      by_cases hxy : x < y
      · have hyx : ¬y < x := lt_asymm hxy
        simp [hxy, hyx]
      · by_cases hyx : y < x
        · simp [hxy, hyx] at h
        · simp only [hxy, hyx, if_false] at h ⊢
          exact ih ys h

/-- `comparePrePart` returns 0 exactly on equal parts. -/
theorem comparePrePart_eq_zero_iff (s o : String) : comparePrePart s o = 0 ↔ s = o := by
  unfold comparePrePart
  split_ifs with h1 h2 h3 h4 h5 <;> try simp_all
  all_goals rcases hpo : parseUint64 o.toList with _ | oi <;>
    rcases hps : parseUint64 s.toList with _ | si <;>
    simp_all <;> split_ifs <;> simp_all

/-- `comparePrePart` only returns -1, 0 or 1. -/
theorem comparePrePart_mem (s o : String) :
    comparePrePart s o = -1 ∨ comparePrePart s o = 0 ∨ comparePrePart s o = 1 := by
  unfold comparePrePart
  split_ifs <;> try simp_all
  all_goals rcases hpo : parseUint64 o.toList with _ | oi <;>
    rcases hps : parseUint64 s.toList with _ | si <;>
    simp_all <;> split_ifs <;> simp_all

/-- A part that wins `comparePrePart` loses it with the arguments
swapped. -/
theorem comparePrePart_flip_one (s o : String) (h : comparePrePart s o = 1) :
    comparePrePart o s = -1 := by
  unfold comparePrePart at h ⊢
  split_ifs at h ⊢ <;> try simp_all
  · rename_i hsl hnso hol
    exact absurd (lexLt_asymm _ _ hsl) (by simp [hol])
  all_goals
    rcases hpo : parseUint64 o.toList with _ | oi <;> rcases hps : parseUint64 s.toList with _ | si <;>
      simp_all <;> omega

/-- Comparing the empty placeholder against a present part loses. -/
theorem comparePrePart_empty_left (o : String) (ho : o ≠ "") : comparePrePart "" o = -1 := by
  unfold comparePrePart
  simp [Ne.symm ho, ho]

/-- Comparing a present part against the empty placeholder wins. -/
theorem comparePrePart_empty_right (s : String) (hs : s ≠ "") : comparePrePart s "" = 1 := by
  unfold comparePrePart
  simp [hs]

/-- The left-exhausted loop never reports the left side greater. -/
theorem cppNil_ne_one : ∀ os : List String, comparePrereleasePartsNil os ≠ 1 := by
  intro os
  induction os with
  | nil => simp [comparePrereleasePartsNil]
  | cons o os ih =>
    unfold comparePrereleasePartsNil
    by_cases ho : o = ""
    · have h0 : comparePrePart "" o = 0 := (comparePrePart_eq_zero_iff "" o).mpr ho.symm
      simpa [h0] using ih
    · rw [comparePrePart_empty_left o ho]
      simp

/-- The left-exhausted loop only returns -1 or 0. -/
theorem cppNil_mem : ∀ os : List String,
    comparePrereleasePartsNil os = -1 ∨ comparePrereleasePartsNil os = 0 := by
  intro os
  induction os with
  | nil => simp [comparePrereleasePartsNil]
  | cons o os ih =>
    unfold comparePrereleasePartsNil
    by_cases ho : o = ""
    · have h0 : comparePrePart "" o = 0 := (comparePrePart_eq_zero_iff "" o).mpr ho.symm
      simpa [h0] using ih
    · rw [comparePrePart_empty_left o ho]
      simp

/-- The part loop returns 0 symmetrically. -/
theorem cpp_flip_zero : ∀ a b : List String,
    comparePrereleaseParts a b = 0 → comparePrereleaseParts b a = 0 := by
  intro a
  induction a with
  | nil =>
    intro b
    induction b with
    | nil => intro h; exact h
    | cons o os ihb =>
      unfold comparePrereleaseParts comparePrereleasePartsNil
      by_cases ho : o = ""
      · have h0 : comparePrePart "" o = 0 := (comparePrePart_eq_zero_iff "" o).mpr ho.symm
        have h1 : comparePrePart o "" = 0 := (comparePrePart_eq_zero_iff o "").mpr ho
        intro h
        rw [h0] at h
        simp only [if_pos rfl] at h
        have := ihb h
        rw [h1]
        simpa using this
      · rw [comparePrePart_empty_left o ho]
        simp
  | cons s ss ih =>
    intro b
    cases b with
    | nil =>
      unfold comparePrereleaseParts comparePrereleasePartsNil
      by_cases hs : s = ""
      · have h0 : comparePrePart s "" = 0 := (comparePrePart_eq_zero_iff s "").mpr hs
        have h1 : comparePrePart "" s = 0 := (comparePrePart_eq_zero_iff "" s).mpr hs.symm
        intro h
        rw [h0] at h
        simp only [if_pos rfl] at h
        have := ih [] h
        rw [h1]
        simpa [comparePrereleaseParts] using this
      · rw [comparePrePart_empty_right s hs]
        simp
    | cons o os =>
      unfold comparePrereleaseParts
      by_cases hso : comparePrePart s o = 0
      · have hos : comparePrePart o s = 0 :=
          (comparePrePart_eq_zero_iff o s).mpr ((comparePrePart_eq_zero_iff s o).mp hso).symm
        intro h
        rw [hso] at h
        simp only [if_pos rfl] at h
        rw [hos]
        simpa using ih os h
      · intro h
        rw [if_neg hso] at h
        exact absurd h hso

/-- The part loop only returns -1, 0 or 1. -/
theorem cpp_mem : ∀ a b : List String,
    comparePrereleaseParts a b = -1 ∨ comparePrereleaseParts a b = 0 ∨
      comparePrereleaseParts a b = 1 := by
  intro a
  induction a with
  | nil =>
    intro b
    rcases cppNil_mem b with h | h <;> simp [comparePrereleaseParts, h]
  | cons s ss ih =>
    intro b
    cases b with
    | nil =>
      unfold comparePrereleaseParts
      by_cases h : comparePrePart s "" = 0
      · simpa [h] using ih []
      · rcases comparePrePart_mem s "" with hm | hm | hm
        · simp [h, hm]
        · exact absurd hm h
        · simp [h, hm]
    | cons o os =>
      unfold comparePrereleaseParts
      by_cases h : comparePrePart s o = 0
      · simpa [h] using ih os
      · rcases comparePrePart_mem s o with hm | hm | hm
        · simp [h, hm]
        · exact absurd hm h
        · simp [h, hm]

/-- If the part loop reports the left side greater, the swapped loop
reports it smaller. -/
theorem cpp_flip_one : ∀ a b : List String,
    comparePrereleaseParts a b = 1 → comparePrereleaseParts b a = -1 := by
  intro a
  induction a with
  | nil =>
    intro b h
    exact absurd h (cppNil_ne_one b)
  | cons s ss ih =>
    intro b
    cases b with
    | nil =>
      unfold comparePrereleaseParts comparePrereleasePartsNil
      by_cases hs : s = ""
      · have h0 : comparePrePart s "" = 0 := (comparePrePart_eq_zero_iff s "").mpr hs
        have h1 : comparePrePart "" s = 0 := (comparePrePart_eq_zero_iff "" s).mpr hs.symm
        intro h
        rw [h0] at h
        simp only [if_pos rfl] at h
        have := ih [] h
        rw [h1]
        simpa [comparePrereleaseParts] using this
      · rw [comparePrePart_empty_right s hs, comparePrePart_empty_left s hs]
        simp
    | cons o os =>
      unfold comparePrereleaseParts
      by_cases hso : comparePrePart s o = 0
      · have hos : comparePrePart o s = 0 :=
          (comparePrePart_eq_zero_iff o s).mpr ((comparePrePart_eq_zero_iff s o).mp hso).symm
        intro h
        rw [hso] at h
        simp only [if_pos rfl] at h
        rw [hos]
        simpa using ih os h
      · intro h
        rw [if_neg hso] at h
        have hflip := comparePrePart_flip_one s o h
        rw [hflip]
        simp

/-- `compareSegment` only returns -1, 0 or 1. -/
theorem compareSegment_mem (a b : Nat) :
    compareSegment a b = -1 ∨ compareSegment a b = 0 ∨ compareSegment a b = 1 := by
  unfold compareSegment
  split_ifs <;> simp

/-- `compareSegment` returns 0 exactly on equal segments. -/
theorem compareSegment_eq_zero_iff (a b : Nat) : compareSegment a b = 0 ↔ a = b := by
  unfold compareSegment
  split_ifs with h1 h2
  · constructor
    · intro h
      exact absurd h (by norm_num)
    · intro h
      omega
  · constructor
    · intro h
      exact absurd h (by norm_num)
    · intro h
      omega
  · simp
    omega

/-- A segment that wins `compareSegment` loses it swapped. -/
theorem compareSegment_flip_one (a b : Nat) (h : compareSegment a b = 1) :
    compareSegment b a = -1 := by
  unfold compareSegment at h ⊢
  split_ifs at h ⊢ <;> omega

/-- `comparePrerelease` returns 0 symmetrically. -/
theorem comparePrerelease_flip_zero (p q : String) (h : comparePrerelease p q = 0) :
    comparePrerelease q p = 0 := by
  unfold comparePrerelease at h ⊢
  exact cpp_flip_zero _ _ h

/-- A prerelease that wins `comparePrerelease` loses it swapped. -/
theorem comparePrerelease_flip_one (p q : String) (h : comparePrerelease p q = 1) :
    comparePrerelease q p = -1 := by
  unfold comparePrerelease at h ⊢
  exact cpp_flip_one _ _ h

/-- `comparePrerelease` only returns -1, 0 or 1. -/
theorem comparePrerelease_mem (p q : String) :
    comparePrerelease p q = -1 ∨ comparePrerelease p q = 0 ∨ comparePrerelease p q = 1 := by
  unfold comparePrerelease
  exact cpp_mem _ _

/-- `Version.Compare` returns 0 symmetrically. -/
theorem compare_flip_zero (v o : SemVersion) (h : v.compare o = 0) : o.compare v = 0 := by
  unfold SemVersion.compare at h ⊢
  by_cases h1 : compareSegment v.major o.major = 0
  · have h1' : compareSegment o.major v.major = 0 := by
      rw [compareSegment_eq_zero_iff] at h1 ⊢
      exact h1.symm
    rw [if_neg (not_not_intro h1)] at h
    rw [if_neg (not_not_intro h1')]
    by_cases h2 : compareSegment v.minor o.minor = 0
    · have h2' : compareSegment o.minor v.minor = 0 := by
        rw [compareSegment_eq_zero_iff] at h2 ⊢
        exact h2.symm
      rw [if_neg (not_not_intro h2)] at h
      rw [if_neg (not_not_intro h2')]
      by_cases h3 : compareSegment v.patch o.patch = 0
      · have h3' : compareSegment o.patch v.patch = 0 := by
          rw [compareSegment_eq_zero_iff] at h3 ⊢
          exact h3.symm
        rw [if_neg (not_not_intro h3)] at h
        rw [if_neg (not_not_intro h3')]
        by_cases hvp : v.pre = "" <;> by_cases hop : o.pre = ""
        · simp [hvp, hop]
        · simp [hvp, hop] at h
        · simp [hvp, hop] at h
        · rw [if_neg (by simp [hvp]), if_neg hvp, if_neg hop] at h
          rw [if_neg (by simp [hop]), if_neg hop, if_neg hvp]
          exact comparePrerelease_flip_zero _ _ h
      · rw [if_pos h3] at h
        exact absurd h h3
    · rw [if_pos h2] at h
      exact absurd h h2
  · rw [if_pos h1] at h
    exact absurd h h1

/-- A version that wins `Version.Compare` loses it swapped. -/
theorem compare_flip_one (v o : SemVersion) (h : v.compare o = 1) : o.compare v = -1 := by
  unfold SemVersion.compare at h ⊢
  by_cases h1 : compareSegment v.major o.major = 0
  · have h1' : compareSegment o.major v.major = 0 := by
      rw [compareSegment_eq_zero_iff] at h1 ⊢
      exact h1.symm
    rw [if_neg (not_not_intro h1)] at h
    rw [if_neg (not_not_intro h1')]
    by_cases h2 : compareSegment v.minor o.minor = 0
    · have h2' : compareSegment o.minor v.minor = 0 := by
        rw [compareSegment_eq_zero_iff] at h2 ⊢
        exact h2.symm
      rw [if_neg (not_not_intro h2)] at h
      rw [if_neg (not_not_intro h2')]
      by_cases h3 : compareSegment v.patch o.patch = 0
      · have h3' : compareSegment o.patch v.patch = 0 := by
          rw [compareSegment_eq_zero_iff] at h3 ⊢
          exact h3.symm
        rw [if_neg (not_not_intro h3)] at h
        rw [if_neg (not_not_intro h3')]
        by_cases hvp : v.pre = "" <;> by_cases hop : o.pre = ""
        · simp [hvp, hop] at h
        · simp [hvp, hop]
        · simp [hvp, hop] at h
        · rw [if_neg (by simp [hvp]), if_neg hvp, if_neg hop] at h
          rw [if_neg (by simp [hop]), if_neg hop, if_neg hvp]
          exact comparePrerelease_flip_one _ _ h
      · rw [if_pos h3] at h
        have hf := compareSegment_flip_one _ _ h
        rw [if_pos (by rw [hf]; norm_num), hf]
    · rw [if_pos h2] at h
      have hf := compareSegment_flip_one _ _ h
      rw [if_pos (by rw [hf]; norm_num), hf]
  · rw [if_pos h1] at h
    have hf := compareSegment_flip_one _ _ h
    rw [if_pos (by rw [hf]; norm_num), hf]

/-- `Version.Compare` only returns -1, 0 or 1. -/
theorem compare_mem (v o : SemVersion) :
    v.compare o = -1 ∨ v.compare o = 0 ∨ v.compare o = 1 := by
  unfold SemVersion.compare
  split_ifs with h1 h2 h3 h4 h5 h6
  · exact compareSegment_mem _ _
  · exact compareSegment_mem _ _
  · exact compareSegment_mem _ _
  · simp
  · simp
  · simp
  · exact comparePrerelease_mem _ _

/-- If a version does not rank strictly above another, it ranks at or
below it in the swapped comparison. -/
theorem compare_le_flip (v o : SemVersion) (h : ¬(o.compare v < 0)) : v.compare o ≤ 0 := by
  rcases compare_mem o v with h1 | h1 | h1
  · exact absurd (by rw [h1]; norm_num) h
  · rw [compare_flip_zero o v h1]
  · rw [compare_flip_one o v h1]
    norm_num

/-- Inserting into the sorted list yields a permutation of consing. -/
theorem insertByLess_perm (x : SemVersion) : ∀ l, (insertByLess x l).Perm (x :: l) := by
  intro l
  induction l with
  | nil => simp [insertByLess]
  | cons y ys ih =>
    unfold insertByLess
    by_cases h : y.lessThan x
    · simp only [h, if_true]
      exact (List.Perm.cons y ih).trans (List.Perm.swap x y ys)
    · simp [h]

/-- The comparison sort permutes its input. -/
theorem sortByLess_perm : ∀ l, (sortByLess l).Perm l := by
  intro l
  induction l with
  | nil => simp [sortByLess]
  | cons x xs ih =>
    exact (insertByLess_perm x (sortByLess xs)).trans (List.Perm.cons x ih)

/-- Inserting preserves the ascending-adjacent property. -/
theorem chain'_insertByLess (x : SemVersion) :
    ∀ l : List SemVersion, l.Chain' (fun a b => a.compare b ≤ 0) →
      (insertByLess x l).Chain' (fun a b => a.compare b ≤ 0) := by
  intro l
  induction l with
  | nil =>
    intro _
    simp [insertByLess]
  | cons y ys ih =>
    intro hc
    unfold insertByLess
    by_cases h : y.lessThan x
    · simp only [h, if_true]
      rw [List.chain'_cons']
      refine ⟨?_, ih hc.tail⟩
      intro z hz
      cases ys with
      | nil =>
        simp [insertByLess] at hz
        subst hz
        have hlt : y.compare x < 0 := by simpa [SemVersion.lessThan] using h
        omega
      | cons w ws =>
        by_cases hw : w.lessThan x
        · simp [insertByLess, hw] at hz
          subst hz
          exact (List.chain'_cons.mp hc).1
        · simp [insertByLess, hw] at hz
          subst hz
          have hlt : y.compare x < 0 := by simpa [SemVersion.lessThan] using h
          omega
    · rw [if_neg h]
      rw [List.chain'_cons]
      refine ⟨?_, hc⟩
      have hnlt : ¬(y.compare x < 0) := by simpa [SemVersion.lessThan] using h
      exact compare_le_flip x y hnlt

/-- The comparison sort arranges every adjacent pair ascending. -/
theorem chain'_sortByLess : ∀ l : List SemVersion,
    (sortByLess l).Chain' (fun a b => a.compare b ≤ 0) := by
  intro l
  induction l with
  | nil => simp [sortByLess]
  | cons x xs ih => exact chain'_insertByLess x _ ih

/-- `NewVersion` stores the unmodified input in `original`. -/
theorem newVersion_original (s : String) (v : SemVersion) (h : newVersion s = some v) :
    v.original = s := by
  unfold newVersion at h
  rcases hc : newVersionCore s.toList with _ | ⟨mj, mn, pt, pre, meta⟩
  · rw [hc] at h
    cases h
  · rw [hc] at h
    dsimp only at h
    split_ifs at h
    all_goals simp_all
    subst h
    rfl

/-- The parse loop emits versions whose originals are exactly the input
strings, in order. -/
theorem parseVersions_ok_map : ∀ (l : List String) (vs : List SemVersion),
    parseVersions l = Except.ok vs → vs.map SemVersion.original = l := by
  intro l
  induction l with
  | nil =>
    intro vs h
    simp only [parseVersions, Except.ok.injEq] at h
    subst h
    simp
  | cons r rest ih =>
    intro vs h
    unfold parseVersions at h
    rcases hv : newVersion r with _ | v
    · rw [hv] at h
      cases h
    · rw [hv] at h
      rcases hp : parseVersions rest with e | vs'
      · rw [hp] at h
        cases h
      · rw [hp] at h
        simp only [Except.ok.injEq] at h
        subst h
        simp [ih vs' hp, newVersion_original r v hv]

/-- Every parsed version round-trips: parsing its original string gives it
back. -/
theorem parseVersions_ok_mem : ∀ (l : List String) (vs : List SemVersion),
    parseVersions l = Except.ok vs → ∀ v ∈ vs, newVersion v.original = some v := by
  intro l
  induction l with
  | nil =>
    intro vs h
    simp only [parseVersions, Except.ok.injEq] at h
    subst h
    simp
  | cons r rest ih =>
    intro vs h
    unfold parseVersions at h
    rcases hv : newVersion r with _ | v
    · rw [hv] at h
      cases h
    · rw [hv] at h
      rcases hp : parseVersions rest with e | vs'
      · rw [hp] at h
        cases h
      · rw [hp] at h
        simp only [Except.ok.injEq] at h
        subst h
        intro w hw
        rcases List.mem_cons.mp hw with rfl | hw'
        · rw [newVersion_original r w hv]
          exact hv
        · exact ih vs' hp w hw'

/-- When every input parses, the parse loop succeeds. -/
theorem parseVersions_ok_of_all : ∀ l : List String,
    (∀ v ∈ l, newVersion v ≠ none) → ∃ vs, parseVersions l = Except.ok vs := by
  intro l
  induction l with
  | nil =>
    intro _
    exact ⟨[], rfl⟩
  | cons r rest ih =>
    intro hall
    rcases hv : newVersion r with _ | v
    · exact absurd hv (hall r (List.mem_cons_self r rest))
    · rcases ih (fun v hv' => hall v (List.mem_cons_of_mem r hv')) with ⟨vs, hvs⟩
      exact ⟨v :: vs, by simp [parseVersions, hv, hvs]⟩

/-- A single unparseable entry makes the parse loop fail (the source's
`log.Fatalf`), regardless of its position. -/
theorem parseVersions_error_of_mem : ∀ (l : List String) (v : String),
    v ∈ l → newVersion v = none → ∃ e, parseVersions l = Except.error e := by
  intro l
  induction l with
  | nil =>
    intro v hv _
    cases hv
  | cons r rest ih =>
    intro v hv hbad
    rcases hr : newVersion r with _ | w
    · exact ⟨"Cannot parse version : " ++ r, by simp [parseVersions, hr]⟩
    · rcases List.mem_cons.mp hv with rfl | hv'
      · rw [hr] at hbad
        cases hbad
      · rcases ih v hv' hbad with ⟨e, he⟩
        exact ⟨e, by simp [parseVersions, hr, he]⟩

/-- Strengthen an adjacent chain with a membership-derived property. -/
theorem chain'_and_mem {α : Type} {R : α → α → Prop} {P : α → Prop} :
    ∀ {l : List α}, l.Chain' R → (∀ x ∈ l, P x) →
      l.Chain' (fun a b => P a ∧ P b ∧ R a b) := by
  intro l
  induction l with
  | nil =>
    intro _ _
    simp
  | cons a t ih =>
    intro hc hp
    cases t with
    | nil => simp
    | cons b t2 =>
      rw [List.chain'_cons] at hc ⊢
      refine ⟨⟨hp a (by simp), hp b (by simp), hc.1⟩, ?_⟩
      exact ih hc.2 fun x hx => hp x (List.mem_cons_of_mem a hx)

/-- C7: when every input string parses as a semantic version,
`sortVersions` succeeds and returns the same multiset of strings with
every adjacent pair in ascending semantic-version order (the earlier
version compares less than or equal to the later one). -/
theorem sortVersions_sorts (versions : List String)
    (h : ∀ v ∈ versions, newVersion v ≠ none) :
    ∃ out, sortVersions versions = Except.ok out ∧
      out.Perm versions ∧
      out.Chain' (fun a b => ∃ va vb, newVersion a = some va ∧ newVersion b = some vb ∧
        va.compare vb ≤ 0) := by
  rcases parseVersions_ok_of_all versions h with ⟨vs, hvs⟩
  refine ⟨(sortByLess vs).map SemVersion.original, ?_, ?_, ?_⟩
  · unfold sortVersions
    rw [hvs]
  · have h2 := (sortByLess_perm vs).map SemVersion.original
    rw [parseVersions_ok_map versions vs hvs] at h2
    exact h2
  · have hmem : ∀ x ∈ sortByLess vs, newVersion x.original = some x := by
      intro x hx
      exact parseVersions_ok_mem versions vs hvs x ((sortByLess_perm vs).mem_iff.mp hx)
    have hc2 := chain'_and_mem (chain'_sortByLess vs) hmem
    rw [List.chain'_map]
    refine hc2.imp ?_
    intro a b hab
    exact ⟨a, b, hab.1, hab.2.1, hab.2.2⟩

theorem sortVersions_sorts_witness :
    ∃ out, sortVersions ["v21.1.7", "v21.1.6"] = Except.ok out ∧
      out.Perm ["v21.1.7", "v21.1.6"] ∧
      out.Chain' (fun a b => ∃ va vb, newVersion a = some va ∧ newVersion b = some vb ∧
        va.compare vb ≤ 0) :=
  sortVersions_sorts ["v21.1.7", "v21.1.6"] (by decide)

/-- C10: `sortVersions` emits each version's original input string
unchanged: a successful run returns a permutation of the input, and every
output string parses back to a version whose `original` is that very
string — no normalization of the tag text. -/
theorem sortVersions_roundtrip (versions out : List String)
    (h : sortVersions versions = Except.ok out) :
    out.Perm versions ∧ ∀ s ∈ out, ∃ sv, newVersion s = some sv ∧ sv.original = s := by
  unfold sortVersions at h
  rcases hp : parseVersions versions with e | vs
  · rw [hp] at h
    cases h
  · rw [hp] at h
    simp only [Except.ok.injEq] at h
    subst h
    constructor
    · have h2 := (sortByLess_perm vs).map SemVersion.original
      rw [parseVersions_ok_map versions vs hp] at h2
      exact h2
    · intro s hs
      rcases List.mem_map.mp hs with ⟨x, hx, rfl⟩
      have hx2 := parseVersions_ok_mem versions vs hp x ((sortByLess_perm vs).mem_iff.mp hx)
      exact ⟨x, hx2, rfl⟩

theorem sortVersions_roundtrip_witness :
    (["v20.2.10", "v21.1.7"] : List String).Perm ["v21.1.7", "v20.2.10"] ∧
    ∀ s ∈ (["v20.2.10", "v21.1.7"] : List String),
      ∃ sv, newVersion s = some sv ∧ sv.original = s :=
  sortVersions_roundtrip ["v21.1.7", "v20.2.10"] ["v20.2.10", "v21.1.7"] rfl

/-- C9: if any tag kept by the filter fails to parse as a semantic
version, `sortVersions` hits the source's `log.Fatalf` (modelled as
`Except.error`, with no entry skipped and no value returned), so `main`
never produces the versions manifest. -/
theorem sortVersions_fatal_on_bad_tag (resp : CrdbVersionsResponse) (v : String)
    (hv : v ∈ getVersions resp) (hbad : newVersion v = none) :
    (∃ e, sortVersions (getVersions resp) = Except.error e) ∧ mainResult resp = none := by
  rcases parseVersions_error_of_mem (getVersions resp) v hv hbad with ⟨e, he⟩
  have hs : sortVersions (getVersions resp) = Except.error e := by
    unfold sortVersions
    rw [he]
  refine ⟨⟨e, hs⟩, ?_⟩
  unfold mainResult
  rw [hs]

theorem sortVersions_fatal_on_bad_tag_witness :
    (∃ e, sortVersions
        (getVersions { data := [{ repositories := [{ tags := [{ name := "foo" }] }] }] }) =
      Except.error e) ∧
    mainResult { data := [{ repositories := [{ tags := [{ name := "foo" }] }] }] } = none :=
  sortVersions_fatal_on_bad_tag
    { data := [{ repositories := [{ tags := [{ name := "foo" }] }] }] } "foo"
    (by decide) (by decide)

end CrdbOperator
